import Mathlib

/-!
Verification of the escpos-printer image pipeline (src/printer.c) against its
natural-language specification.

The C source is shallowly embedded: pure helpers (`calculate_padding`,
`convert_to_bit`, `set_bit`) become Lean functions on `Nat`/`Int`; the byte
buffer written by `convert_image_to_bits` is a `List Nat` updated by
`List.set`; socket writes are modelled by an oracle (a list of write
outcomes) and the loop of `escpos_printer_raw` consumes it; the chunking
loop of `escpos_printer_image` is modelled with explicit fuel (the loop
variable `y` increases by one per iteration, so `height + 1` steps always
suffice when the advance per chunk is positive).

Constants from `constants.h` (not part of src/) — `ESCPOS_CHUNK_DOT_HEIGHT`,
`ESCPOS_CHUNK_OVERLAP`, `ESCPOS_MAX_DOT_WIDTH`, the command byte strings and
the `ESCPOS_COMP_*` component counts — are modelled from the spec: the
component counts are 1/2/3/4 (spec §3 RasterImage), the chunk capacity and
overlap margin are abstract parameters with the spec's constraints (capacity
a positive multiple of 32, a positive overlap margin smaller than the
capacity), and command prefixes are abstract byte parameters.
-/

namespace Escpos

/-- Error codes of `error_private.h`/`printer.h`, as set into `last_error`.
Modelled from the spec: the header defining the codes is not under src/;
spec §7 lists the error kinds. -/
inductive Err where
  | sock
  | invalidAddr
  | connectionFailed
  | sendFailed
  | imageUploadFailed
  | imagePrintFailed
deriving DecidableEq, Repr

/-- Outcome of one underlying `send` call: an unrecoverable error (`-1` in C)
or acceptance of `k` bytes of the buffer passed to it. -/
inductive WriteOutcome where
  | error : WriteOutcome
  | accepted : Nat → WriteOutcome
deriving DecidableEq, Repr

/-- One upload or print attempt of the chunk at cursor `y`, with its
outcome. -/
inductive Ev where
  | upload (y : Nat) (ok : Bool)
  | print (y : Nat) (ok : Bool)
deriving DecidableEq, Repr

/-- `set_bit` (printer.c:86–96): sets or clears bit `i` of a byte.  The C
`*byte &= ~(1 << i)` on an `unsigned char` truncates the mask to 8 bits,
hence the `255 ^^^ (1 <<< i)` mask. -/
def set_bit (byte : Nat) (i : Nat) (bit : Nat) : Nat :=
  if bit > 0 then byte ||| (1 <<< i) else byte &&& (255 ^^^ (1 <<< i))

/-- `convert_to_bit` (printer.c:98–124): classifies one pixel as mark (1) or
blank (0).  `pixel` is the view of the image buffer starting at the pixel's
first component byte (`pixel o` = byte at offset `o`).  Component counts
1/2 (G/GA) threshold the first byte; 3/4 (RGB/RGBA) threshold the average
of the first three bytes.  The C switch leaves `bit` uninitialized for any
other count (the caller never passes one); the `_` arm's value 0 is
arbitrary and no theorem depends on it. -/
def convert_to_bit (pixel : Nat → Nat) (comp : Nat) : Nat :=
  match comp with
  | 1 | 2 => if pixel 0 < 128 then 1 else 0
  | 3 | 4 => if (pixel 0 + pixel 1 + pixel 2) / 3 < 128 then 1 else 0
  | _ => 0

/-- `calculate_padding` (printer.c:127–140): symmetric padding rounding
`size` up to a multiple of 32, the odd unit going to the right. -/
def calculate_padding (size : Nat) : Nat × Nat :=
  if size % 32 == 0 then
    (0, 0)
  else
    let padding := 32 - size % 32
    (padding / 2, padding / 2 + (if padding % 2 == 0 then 0 else 1))

/-- The `while (sent < total)` loop of `escpos_printer_raw` (printer.c:60–68).
Each iteration issues `send(sockfd, message, total, 0)` — note: always the
whole `message` from offset 0 and always length `total`, regardless of
`sent`.  A send accepting `k` bytes delivers the first `k` bytes of the
buffer it was given, so each successful iteration appends
`message.take k` to the wire; an error sets `last_error = SEND_FAILED`
and breaks.  The result is `(return code, error set, bytes on the wire)`;
`none` means the supplied outcomes ran out before the loop finished. -/
def escpos_printer_raw_loop (message : List Nat) (total sent : Nat)
    (oracle : List WriteOutcome) : Option (Nat × Option Err × List Nat) :=
  if sent < total then
    match oracle with
    | [] => none
    | .error :: _ => some (1, some Err.sendFailed, [])
    | .accepted k :: rest =>
      match escpos_printer_raw_loop message total (sent + k) rest with
      | none => none
      | some (r, e, wire) => some (r, e, message.take k ++ wire)
  else
    some (if sent = total then 0 else 1, none, [])

/-- `escpos_printer_raw` (printer.c:51–71): `total = len`, `sent = 0`, run
the loop, return `!(sent == total)`. -/
def escpos_printer_raw (message : List Nat) (len : Nat)
    (oracle : List WriteOutcome) : Option (Nat × Option Err × List Nat) :=
  escpos_printer_raw_loop message len 0 oracle

/-- The sequence of transport writes issued by a successful
`escpos_printer_upload` (printer.c:197–227): the 4-byte header
`[cmd₁, cmd₂, w/8, h/8]` (the two `ESCPOS_CMD_DEFINE_DL_BIT_IMAGE` bytes
are abstract parameters; `constants.h` is not under src/) sent as one
`escpos_printer_raw` call, then `(w * (h/8)) / 4` raw calls of 4 bytes
each, the `i`-th carrying `pixel_bits[4i .. 4i+4)`.  The casts to
`unsigned char` are the `% 256`. -/
def escpos_printer_upload_sends (cmd1 cmd2 : Nat) (pixel_bits : List Nat)
    (w h : Nat) : List (List Nat) :=
  [cmd1, cmd2, (w / 8) % 256, (h / 8) % 256] ::
    (List.range ((w * (h / 8)) / 4)).map (fun i => (pixel_bits.drop (i * 4)).take 4)

/-- The chunk-height expression of printer.c:262, in C `int` arithmetic
(hence `Int`: the subtraction can go negative):
`(y + 1) * ESCPOS_CHUNK_DOT_HEIGHT <= height ? ESCPOS_CHUNK_DOT_HEIGHT
: height - (y * ESCPOS_CHUNK_DOT_HEIGHT)`.  `capacity` stands for the
`ESCPOS_CHUNK_DOT_HEIGHT` constant of `constants.h` (not under src/). -/
def chunk_height (capacity height y : Int) : Int :=
  if (y + 1) * capacity ≤ height then capacity else height - y * capacity

/-- The sequence of chunk heights that the `while (y * print_height <
height)` loop of `escpos_printer_image` (printer.c:257–276) hands to
`convert_image_to_bits`/`escpos_printer_upload`, one per iteration, with
the cursor `y` starting at 0 and increasing by 1.  Fuel-indexed: the loop
runs at most `height` iterations when `print_height ≥ 1`, so fuel
`height + 1` is always enough. -/
def image_chunk_heights_aux (capacity print_height height : Nat) :
    Nat → Nat → List Int
  | 0, _ => []
  | fuel + 1, y =>
    if y * print_height < height then
      chunk_height capacity height y ::
        image_chunk_heights_aux capacity print_height height fuel (y + 1)
    else []

/-- Chunk heights of a full `escpos_printer_image` run on an image of the
given height. -/
def image_chunk_heights (capacity print_height height : Nat) : List Int :=
  image_chunk_heights_aux capacity print_height height (height + 1) 0

/-- The chunk loop of `escpos_printer_image` (printer.c:257–276) as a
sequence of upload/print attempts.  `up y` / `pr y` give the outcome of
the chunk-`y` upload (`escpos_printer_upload`, which sets `last_error =
ESCPOS_ERROR_IMAGE_UPLOAD_FAILED` on failure, printer.c:222–224) and
print (`escpos_printer_print`, which sets
`ESCPOS_ERROR_IMAGE_PRINT_FAILED`, printer.c:235–237).  Result:
`(attempts, return value, error set)`; on the first failure the loop
breaks, so no later chunk appears.  Fuel-indexed as in
`image_chunk_heights_aux`. -/
def escpos_printer_image_loop (up pr : Nat → Bool) (print_height height : Nat) :
    Nat → Nat → List Ev × Nat × Option Err
  | 0, _ => ([], 0, none)
  | fuel + 1, y =>
    if y * print_height < height then
      if up y then
        if pr y then
          let rest := escpos_printer_image_loop up pr print_height height fuel (y + 1)
          (.upload y true :: .print y true :: rest.1, rest.2)
        else ([.upload y true, .print y false], 1, some Err.imagePrintFailed)
      else ([.upload y false], 1, some Err.imageUploadFailed)
    else ([], 0, none)

/-- `escpos_printer_image` (printer.c:242–280) at the upload/print event
level.  `decoded` is the `stbi_load` result, `(width, height, comp)` (the
pixel data does not influence control flow); when it is `none` the whole
body is skipped and the initial `result = 0` is returned with no send. -/
def escpos_printer_image (decoded : Option (Nat × Nat × Nat))
    (up pr : Nat → Bool) (print_height : Nat) : List Ev × Nat × Option Err :=
  match decoded with
  | none => ([], 0, none)
  | some (_, height, _) =>
      escpos_printer_image_loop up pr print_height height (height + 1) 0

/-- Bit number `j` of a byte buffer, in the packer's addressing: byte
`j / 8`, MSB-first within the byte (bit position `7 - j % 8`), as in
`set_bit(&pixel_bits[pi / 8], 7 - (pi % 8), bit)`. -/
def buf_bit (B : List Nat) (j : Nat) : Bool :=
  (B.getD (j / 8) 0).testBit (7 - j % 8)

/-- One `set_bit(&pixel_bits[pi / 8], 7 - (pi % 8), bit)` call
(printer.c:169/180/188) on the buffer. -/
def setBitAt (buf : List Nat) (idx bit : Nat) : List Nat :=
  buf.set (idx / 8) (set_bit (buf.getD (idx / 8) 0) (7 - idx % 8) bit)

/-- One inner `for (y = 0; y < padded_h; y++)` loop of
`convert_image_to_bits`: writes bits `base + 0 .. base + n - 1`, bit
`base + y` receiving value `g y`. -/
def write_col (buf : List Nat) (base : Nat) (g : Nat → Nat) (n : Nat) :
    List Nat :=
  (List.range n).foldl (fun b y => setBitAt b (base + y) (g y)) buf

/-- `convert_image_to_bits` (printer.c:142–195).  The three `x` loops write,
column by column, the left padding columns (`pi = x*padded_h + y`, bit 0),
the `w` image columns (`pi = padding_l*padded_h + x*padded_h + y`, bit
sampled for `y < h`, 0 for the padded rows below), and the right padding
columns.  Height padding is `padding_b + padding_t`, all appended below
the image rows (`padding_b += padding_t`).  Returns the written buffer
and the reported `(*bitmap_w, *bitmap_h)`. -/
def convert_image_to_bits (buf : List Nat) (image : Nat → Nat)
    (w h comp : Nat) : List Nat × Nat × Nat :=
  let padding_l := (calculate_padding w).1
  let padding_r := (calculate_padding w).2
  let padding_t := (calculate_padding h).1
  let padding_b := (calculate_padding h).2 + padding_t
  let padded_h := h + padding_b
  let buf1 := (List.range padding_l).foldl
    (fun b x => write_col b (x * padded_h) (fun _ => 0) padded_h) buf
  let buf2 := (List.range w).foldl
    (fun b x => write_col b (padding_l * padded_h + x * padded_h)
      (fun y => if y < h then
          convert_to_bit (fun o => image (y * w * comp + x * comp + o)) comp
        else 0) padded_h) buf1
  let buf3 := (List.range padding_r).foldl
    (fun b x => write_col b (padding_l * padded_h + w * padded_h + x * padded_h)
      (fun _ => 0) padded_h) buf2
  (buf3, w + padding_l + padding_r, h + padding_b)

/-- The bitmap width reported by `convert_image_to_bits` (printer.c:193):
`w + padding_l + padding_r`. -/
def bitmap_w (w : Nat) : Nat :=
  w + (calculate_padding w).1 + (calculate_padding w).2

/-- The bitmap height reported by `convert_image_to_bits` (printer.c:194):
`h + padding_b`, where `padding_b` has absorbed `padding_t`. -/
def bitmap_h (h : Nat) : Nat :=
  h + ((calculate_padding h).2 + (calculate_padding h).1)

/-- The intended value of the bit at column `col`, row `y` of the packed
bitmap: a sampled pixel inside the image region (left-padding columns
before it, rows `≥ h` and right-padding columns after it are blank). -/
def bit_at (image : Nat → Nat) (w h comp col y : Nat) : Nat :=
  if (calculate_padding w).1 ≤ col ∧ col < (calculate_padding w).1 + w ∧ y < h
  then
    convert_to_bit
      (fun o => image (y * w * comp + (col - (calculate_padding w).1) * comp + o))
      comp
  else 0

/-- C4: for every `size ≥ 1`, `size + left + right` is the smallest multiple
of 32 that is `≥ size`; `left + right` is `0` when `size` is already aligned
and `32 - size % 32` otherwise; `left = (left+right)/2`, and `right`
exceeds `left` by exactly 1 when the total padding is odd, else equals it. -/
theorem calculate_padding_correct (size : Nat) (hsz : 1 ≤ size) :
    32 ∣ (size + (calculate_padding size).1 + (calculate_padding size).2) ∧
    size ≤ size + (calculate_padding size).1 + (calculate_padding size).2 ∧
    size + (calculate_padding size).1 + (calculate_padding size).2
      < size + 32 ∧
    (size % 32 = 0 →
      (calculate_padding size).1 + (calculate_padding size).2 = 0) ∧
    (size % 32 ≠ 0 →
      (calculate_padding size).1 + (calculate_padding size).2
        = 32 - size % 32) ∧
    (calculate_padding size).1
      = ((calculate_padding size).1 + (calculate_padding size).2) / 2 ∧
    (calculate_padding size).2
      = ((calculate_padding size).1 + (calculate_padding size).2)
        - (calculate_padding size).1 ∧
    (((calculate_padding size).1 + (calculate_padding size).2) % 2 = 1 →
      (calculate_padding size).2 = (calculate_padding size).1 + 1) ∧
    (((calculate_padding size).1 + (calculate_padding size).2) % 2 = 0 →
      (calculate_padding size).2 = (calculate_padding size).1) := by
  unfold calculate_padding
  by_cases h : size % 32 = 0
  · simp [h]; omega
  · by_cases h2 : (32 - size % 32) % 2 = 0 <;> simp [h, h2] <;> omega

/-- Witness for C4 at `size = 33`: projecting the alignment conjunct. -/
theorem calculate_padding_correct_witness :
    32 ∣ (33 + (calculate_padding 33).1 + (calculate_padding 33).2) :=
  (calculate_padding_correct 33 (by decide)).1

/-- C5 counterexample: the claim states `calculate_padding 33 = (0, 1)`,
but the code yields `(15, 16)` (padding `31`, left `15`, right `16`). -/
theorem calculate_padding_33_not_0_1 :
    calculate_padding 33 = (15, 16) ∧ calculate_padding 33 ≠ (0, 1) := by
  decide

/-- C5 amended: `calculate_padding 32 = (0,0)`, `calculate_padding 33 =
(15,16)` (not `(0,1)`: padding 31 splits as left 15, right 16), and
`calculate_padding 64 = (0,0)`. -/
theorem calculate_padding_examples :
    calculate_padding 32 = (0, 0) ∧
    calculate_padding 33 = (15, 16) ∧
    calculate_padding 64 = (0, 0) := by
  decide

/-- C2 failing input: message `[1,2,3,4]` (`len = 4`) with two partial
writes of 2 bytes each.  The code reports success (return 0, no error),
but the wire carries `[1,2,1,2]` — after the first partial write it
re-sends from offset 0, duplicating the first two bytes and never
delivering bytes 3 and 4 — contradicting the claim that success implies
exactly the `len` message bytes were delivered in order without
duplication.  Additionally, with two partial writes of 3 bytes
(`sent` overshoots: `3 + 3 = 6 ≠ 4`), the code returns failure (1) with
no error recorded, though no write reported an unrecoverable error. -/
theorem escpos_printer_raw_resend_bug :
    escpos_printer_raw [1, 2, 3, 4] 4 [.accepted 2, .accepted 2] =
      some (0, none, [1, 2, 1, 2]) ∧
    ([1, 2, 1, 2] : List Nat) ≠ [1, 2, 3, 4] ∧
    escpos_printer_raw [1, 2, 3, 4] 4 [.accepted 3, .accepted 3] =
      some (1, none, [1, 2, 3, 1, 2, 3]) := by
  refine ⟨by rfl, by decide, by rfl⟩

/-- Splitting a list of length `4 * n` into `n` consecutive 4-byte groups
and concatenating the groups gives back the list. -/
theorem upload_chunks_join : ∀ (n : Nat) (l : List Nat), l.length = 4 * n →
    ((List.range n).map (fun i => (l.drop (i * 4)).take 4)).flatten = l := by
  intro n
  induction n with
  | zero =>
    intro l hl
    simp only [Nat.mul_zero] at hl
    simp [List.eq_nil_of_length_eq_zero hl]
  | succ n ih =>
    intro l hl
    rw [List.range_succ_eq_map, List.map_cons, List.map_map, List.flatten_cons]
    have h2 : ((fun i => (l.drop (i * 4)).take 4) ∘ Nat.succ)
        = (fun i => ((l.drop 4).drop (i * 4)).take 4) := by
      funext i
      simp only [Function.comp_apply, List.drop_drop]
      congr 2
      omega
    rw [h2, ih (l.drop 4) (by simp [hl]; omega)]
    simp

/-- C3 counterexample: for a 32×32 packed bitmap the claim says the data
phase carries `(w/8)*(h/8) = 16` bytes, but the code sends `32` groups of
4 bytes, i.e. `w*h/8 = 128` bytes (the full packed buffer). -/
theorem escpos_printer_upload_sends_not_W8H8 :
    ((((escpos_printer_upload_sends 0 0 (List.replicate 128 0) 32 32).drop 1).map
        List.length).sum = 128) ∧
    (32 / 8) * ((32 : Nat) / 8) = 16 ∧ (128 : Nat) ≠ 16 := by
  decide

/-- C3 amended: a successful upload of a packed `w × h` bitmap transmits
exactly a 4-byte header (the 2 command bytes, then `w/8`, then `h/8`, as a
single transport write) followed by exactly `(w/8)*(h/8)*8 = w*h/8` bytes
of packed bitmap data — the packed buffer itself, in order — sent in
4-byte groups (`w*h/32` of them).  (The claim's count `(w/8)*(h/8)` is off
by the factor 8: each byte-width × byte-height cell spans 8 bytes.) -/
theorem escpos_printer_upload_sends_correct (cmd1 cmd2 : Nat) (bits : List Nat)
    (w h : Nat) (hw : 32 ∣ w) (hh : 32 ∣ h) (hlen : bits.length = w * h / 8) :
    (escpos_printer_upload_sends cmd1 cmd2 bits w h).head? =
      some [cmd1, cmd2, (w / 8) % 256, (h / 8) % 256] ∧
    ((escpos_printer_upload_sends cmd1 cmd2 bits w h).drop 1).length = w * h / 32 ∧
    (∀ g ∈ (escpos_printer_upload_sends cmd1 cmd2 bits w h).drop 1, g.length = 4) ∧
    ((escpos_printer_upload_sends cmd1 cmd2 bits w h).drop 1).flatten = bits ∧
    (((escpos_printer_upload_sends cmd1 cmd2 bits w h).drop 1).map List.length).sum =
      (w / 8) * (h / 8) * 8 := by
  obtain ⟨a, rfl⟩ := hw
  obtain ⟨b, rfl⟩ := hh
  have hcount : 32 * a * (32 * b / 8) / 4 = 32 * (a * b) := by
    have h8 : 32 * b / 8 = 4 * b := by omega
    rw [h8]
    have : 32 * a * (4 * b) = 4 * (32 * (a * b)) := by ring
    rw [this, Nat.mul_div_cancel_left _ (by norm_num)]
  have hlen' : bits.length = 4 * (32 * (a * b)) := by
    rw [hlen]
    have : 32 * a * (32 * b) = 8 * (4 * (32 * (a * b))) := by ring
    rw [this, Nat.mul_div_cancel_left _ (by norm_num)]
  have hjoin : ((escpos_printer_upload_sends cmd1 cmd2 bits (32 * a) (32 * b)).drop
      1).flatten = bits := by
    simp only [escpos_printer_upload_sends, List.drop_succ_cons, List.drop_zero,
      hcount]
    exact upload_chunks_join (32 * (a * b)) bits hlen'
  refine ⟨rfl, ?_, ?_, hjoin, ?_⟩
  · simp only [escpos_printer_upload_sends, List.drop_succ_cons, List.drop_zero,
      List.length_map, List.length_range, hcount]
    have : 32 * a * (32 * b) = 32 * (32 * (a * b)) := by ring
    rw [this, Nat.mul_div_cancel_left _ (by norm_num)]
  · intro g hg
    simp only [escpos_printer_upload_sends, List.drop_succ_cons, List.drop_zero,
      List.mem_map, List.mem_range, hcount] at hg
    obtain ⟨i, hi, rfl⟩ := hg
    simp only [List.length_take, List.length_drop, hlen']
    set c := a * b
    omega
  · rw [← List.length_flatten, hjoin, hlen']
    have : (32 * a / 8) * (32 * b / 8) * 8 = 4 * (32 * (a * b)) := by
      have ha : 32 * a / 8 = 4 * a := by omega
      have hb : 32 * b / 8 = 4 * b := by omega
      rw [ha, hb]; ring
    rw [this]

/-- Witness for C3's amended theorem at `w = h = 32` with a concrete
128-byte packed buffer: the data groups concatenate to the buffer. -/
theorem escpos_printer_upload_sends_correct_witness :
    ((escpos_printer_upload_sends 3 7 (List.replicate 128 0) 32 32).drop 1).flatten =
      List.replicate 128 0 :=
  (escpos_printer_upload_sends_correct 3 7 (List.replicate 128 0) 32 32
    (by decide) (by decide) (by simp)).2.2.2.1

/-- C1 failing input: `chunkCapacity = 64`, `overlapMargin = 32` (so
`printHeight = 32`; the constants are spec-modelled, the spec requiring a
positive overlap margin smaller than the capacity), image height `H = 128`.
The loop runs four iterations and hands the packer chunk heights
`[64, 64, 0, -64]`, whereas the claim's formula
`min(chunkCapacity, H - y*printHeight)` gives `[64, 64, 64, 32]`: at
`y = 2` the code computes `H - y*chunkCapacity = 0` (not positive — after
padding this reaches `escpos_printer_upload` as `h = 0`, violating its
`assert(h > 0)`), and at `y = 3` it is `-64`. -/
theorem image_chunk_heights_bug :
    image_chunk_heights 64 32 128 = [64, 64, 0, -64] ∧
    (min (64 : Int) (128 - 2 * 32) = 64 ∧ ((0 : Int) ≠ 64 ∧ ¬(0 : Int) > 0)) ∧
    (min (64 : Int) (128 - 3 * 32) = 32 ∧ (-64 : Int) ≠ 32) := by
  decide

/-- The loop guard `y * print_height < height` holds exactly when
`y < ⌈height / print_height⌉`. -/
theorem image_loop_guard (ph H y : Nat) (hph : 0 < ph) :
    y * ph < H ↔ y < (H + ph - 1) / ph := by
  have key : y + 1 ≤ (H + ph - 1) / ph ↔ (y + 1) * ph ≤ H + ph - 1 :=
    Nat.le_div_iff_mul_le hph
  have expand : (y + 1) * ph = y * ph + ph := by ring
  have h1 : (y < (H + ph - 1) / ph) ↔ y * ph + ph ≤ H + ph - 1 := by
    rw [Nat.lt_iff_add_one_le, key, expand]
  rw [h1]
  omega

/-- `⌈height / print_height⌉ ≤ height` when `print_height ≥ 1`, so fuel
`height + 1` suffices for the chunk loop. -/
theorem image_loop_rounds_le (ph H : Nat) (hph : 0 < ph) :
    (H + ph - 1) / ph ≤ H := by
  have h2 : (H + 1) * ph = H * ph + ph := by ring
  have hH : H ≤ H * ph := Nat.le_mul_of_pos_right H hph
  have hlt : (H + ph - 1) / ph < H + 1 := by
    rw [Nat.div_lt_iff_lt_mul hph]
    omega
  omega

/-- Shifting the cursor of one upload-then-print round. -/
theorem image_round_shift (y : Nat) :
    ((fun j => [Ev.upload (y + j) true, Ev.print (y + j) true]) ∘ Nat.succ)
      = (fun j => [Ev.upload (y + 1 + j) true, Ev.print (y + 1 + j) true]) := by
  funext j
  have hj : y + (j + 1) = y + 1 + j := by omega
  simp only [Function.comp_apply, Nat.succ_eq_add_one, hj]

/-- A run of the chunk loop from cursor `y` in which every remaining round
succeeds performs exactly the remaining `⌈H/ph⌉ - y` upload-then-print
rounds, in cursor order, and returns 0 with no error. -/
theorem image_loop_all_ok (up pr : Nat → Bool) (ph H : Nat) (hph : 0 < ph) :
    ∀ fuel y, (H + ph - 1) / ph - y < fuel →
      (∀ i, y ≤ i → i < (H + ph - 1) / ph → up i = true ∧ pr i = true) →
      escpos_printer_image_loop up pr ph H fuel y =
        (((List.range ((H + ph - 1) / ph - y)).map
            (fun j => [Ev.upload (y + j) true, Ev.print (y + j) true])).flatten,
          0, none) := by
  intro fuel
  induction fuel with
  | zero => intro y hfuel hok; omega
  | succ fuel ih =>
    intro y hfuel hok
    by_cases hguard : y * ph < H
    · have hy : y < (H + ph - 1) / ph := (image_loop_guard ph H y hph).mp hguard
      have hup := (hok y le_rfl hy).1
      have hpr := (hok y le_rfl hy).2
      simp only [escpos_printer_image_loop, if_pos hguard, hup, hpr, if_true]
      rw [ih (y + 1) (by omega) (fun i hi1 hi2 => hok i (by omega) hi2)]
      have hN : (H + ph - 1) / ph - y = ((H + ph - 1) / ph - (y + 1)) + 1 := by
        omega
      rw [hN, List.range_succ_eq_map, List.map_cons, List.map_map,
        List.flatten_cons, image_round_shift]
      simp
    · have hy : ¬y < (H + ph - 1) / ph :=
        fun h => hguard ((image_loop_guard ph H y hph).mpr h)
      have hz : (H + ph - 1) / ph - y = 0 := by omega
      simp [escpos_printer_image_loop, hguard, hz]

/-- A run of the chunk loop from cursor `y` whose first failure is the
upload of chunk `y0` performs the successful rounds `y..y0-1`, then the
failed upload, and aborts with `ImageUploadError`; no later chunk is
touched. -/
theorem image_loop_upload_fail (up pr : Nat → Bool) (ph H : Nat) (hph : 0 < ph) :
    ∀ fuel y y0, y ≤ y0 → y0 < (H + ph - 1) / ph → y0 - y < fuel →
      (∀ i, y ≤ i → i < y0 → up i = true ∧ pr i = true) →
      up y0 = false →
      escpos_printer_image_loop up pr ph H fuel y =
        (((List.range (y0 - y)).map
            (fun j => [Ev.upload (y + j) true, Ev.print (y + j) true])).flatten ++
          [Ev.upload y0 false], 1, some Err.imageUploadFailed) := by
  intro fuel
  induction fuel with
  | zero => intro y y0 h1 h2 h3 _ _; omega
  | succ fuel ih =>
    intro y y0 hyy0 hy0N hfuel hok hfail
    have hguard : y * ph < H := (image_loop_guard ph H y hph).mpr (by omega)
    by_cases hy : y = y0
    · subst hy
      simp [escpos_printer_image_loop, hguard, hfail]
    · have hup := (hok y le_rfl (by omega)).1
      have hpr := (hok y le_rfl (by omega)).2
      simp only [escpos_printer_image_loop, if_pos hguard, hup, hpr, if_true]
      rw [ih (y + 1) y0 (by omega) hy0N (by omega)
        (fun i hi1 hi2 => hok i (by omega) hi2) hfail]
      have hN : y0 - y = (y0 - (y + 1)) + 1 := by omega
      rw [hN, List.range_succ_eq_map, List.map_cons, List.map_map,
        List.flatten_cons, image_round_shift]
      simp

/-- A run of the chunk loop from cursor `y` whose first failure is the
print of chunk `y0` performs the successful rounds `y..y0-1`, then the
successful upload and failed print of chunk `y0`, and aborts with
`ImagePrintError`; no later chunk is touched. -/
theorem image_loop_print_fail (up pr : Nat → Bool) (ph H : Nat) (hph : 0 < ph) :
    ∀ fuel y y0, y ≤ y0 → y0 < (H + ph - 1) / ph → y0 - y < fuel →
      (∀ i, y ≤ i → i < y0 → up i = true ∧ pr i = true) →
      up y0 = true → pr y0 = false →
      escpos_printer_image_loop up pr ph H fuel y =
        (((List.range (y0 - y)).map
            (fun j => [Ev.upload (y + j) true, Ev.print (y + j) true])).flatten ++
          [Ev.upload y0 true, Ev.print y0 false], 1, some Err.imagePrintFailed) := by
  intro fuel
  induction fuel with
  | zero => intro y y0 h1 h2 h3 _ _ _; omega
  | succ fuel ih =>
    intro y y0 hyy0 hy0N hfuel hok hupok hfail
    have hguard : y * ph < H := (image_loop_guard ph H y hph).mpr (by omega)
    by_cases hy : y = y0
    · subst hy
      simp [escpos_printer_image_loop, hguard, hupok, hfail]
    · have hup := (hok y le_rfl (by omega)).1
      have hpr := (hok y le_rfl (by omega)).2
      simp only [escpos_printer_image_loop, if_pos hguard, hup, hpr, if_true]
      rw [ih (y + 1) y0 (by omega) hy0N (by omega)
        (fun i hi1 hi2 => hok i (by omega) hi2) hupok hfail]
      have hN : y0 - y = (y0 - (y + 1)) + 1 := by omega
      rw [hN, List.range_succ_eq_map, List.map_cons, List.map_map,
        List.flatten_cons, image_round_shift]
      simp

/-- C9: `escpos_printer_image` processes chunks strictly in cursor order:
when every upload and print succeeds it performs exactly
`⌈H / printHeight⌉` upload-then-print rounds; the first failing upload
aborts immediately with `ImageUploadError` and the first failing print
with `ImagePrintError`, the attempt list ending at the failed operation —
later chunks are never touched, and the successfully printed prefix is
not revisited (no rollback). -/
theorem escpos_printer_image_chunks (up pr : Nat → Bool) (w c ph H : Nat)
    (hph : 0 < ph) :
    ((∀ i, i < (H + ph - 1) / ph → up i = true ∧ pr i = true) →
      escpos_printer_image (some (w, H, c)) up pr ph =
        (((List.range ((H + ph - 1) / ph)).map
            (fun y => [Ev.upload y true, Ev.print y true])).flatten, 0, none)) ∧
    (∀ y0, y0 < (H + ph - 1) / ph →
      (∀ i, i < y0 → up i = true ∧ pr i = true) → up y0 = false →
      escpos_printer_image (some (w, H, c)) up pr ph =
        (((List.range y0).map
            (fun y => [Ev.upload y true, Ev.print y true])).flatten ++
          [Ev.upload y0 false], 1, some Err.imageUploadFailed)) ∧
    (∀ y0, y0 < (H + ph - 1) / ph →
      (∀ i, i < y0 → up i = true ∧ pr i = true) → up y0 = true → pr y0 = false →
      escpos_printer_image (some (w, H, c)) up pr ph =
        (((List.range y0).map
            (fun y => [Ev.upload y true, Ev.print y true])).flatten ++
          [Ev.upload y0 true, Ev.print y0 false], 1, some Err.imagePrintFailed)) := by
  have hfuel : (H + ph - 1) / ph - 0 < H + 1 := by
    have := image_loop_rounds_le ph H hph
    omega
  have hfun : (fun j => [Ev.upload (0 + j) true, Ev.print (0 + j) true])
      = (fun y => [Ev.upload y true, Ev.print y true]) := by
    funext j
    simp
  refine ⟨?_, ?_, ?_⟩
  · intro hok
    show escpos_printer_image_loop up pr ph H (H + 1) 0 = _
    rw [image_loop_all_ok up pr ph H hph (H + 1) 0 hfuel
      (fun i _ hi2 => hok i hi2)]
    rw [Nat.sub_zero, hfun]
  · intro y0 hy0 hok hfail
    show escpos_printer_image_loop up pr ph H (H + 1) 0 = _
    rw [image_loop_upload_fail up pr ph H hph (H + 1) 0 y0 (Nat.zero_le y0) hy0
      (by omega) (fun i _ hi2 => hok i hi2) hfail]
    rw [Nat.sub_zero, hfun]
  · intro y0 hy0 hok hupok hfail
    show escpos_printer_image_loop up pr ph H (H + 1) 0 = _
    rw [image_loop_print_fail up pr ph H hph (H + 1) 0 y0 (Nat.zero_le y0) hy0
      (by omega) (fun i _ hi2 => hok i hi2) hupok hfail]
    rw [Nat.sub_zero, hfun]

/-- Witness for C9: a height-80 image with `printHeight = 32` and all
operations succeeding is printed in exactly `⌈80/32⌉ = 3` rounds. -/
theorem escpos_printer_image_chunks_witness :
    escpos_printer_image (some (5, 80, 1)) (fun _ => true) (fun _ => true) 32 =
      (((List.range 3).map
          (fun y => [Ev.upload y true, Ev.print y true])).flatten, 0, none) :=
  (escpos_printer_image_chunks (fun _ => true) (fun _ => true) 5 1 32 80
    (by decide)).1 (fun i _ => ⟨rfl, rfl⟩)

/-- C10: when decoding fails (`stbi_load` returns `NULL`) the function
skips the whole body: no upload or print is attempted, nothing is sent,
no error is set, and the initial `result = 0` — success — is returned. -/
theorem escpos_printer_image_decode_failure (up pr : Nat → Bool) (ph : Nat) :
    escpos_printer_image none up pr ph = ([], 0, none) := rfl

/-- C6: the pixel sampler returns 1 exactly when the pixel is dark: for
component counts 1 and 2 it returns 1 iff the first (luminance) byte is
`< 128`; for counts 3 and 4 it returns 1 iff `(r+g+b)/3 < 128`, the alpha
byte being ignored (two pixels agreeing on the first three bytes classify
identically); a gray byte 127 marks and 128 blanks. -/
theorem convert_to_bit_correct (pixel : Nat → Nat) (comp : Nat) :
    (comp = 1 ∨ comp = 2 → (convert_to_bit pixel comp = 1 ↔ pixel 0 < 128)) ∧
    (comp = 1 ∨ comp = 2 → (convert_to_bit pixel comp = 0 ↔ 128 ≤ pixel 0)) ∧
    (comp = 3 ∨ comp = 4 →
      (convert_to_bit pixel comp = 1 ↔ (pixel 0 + pixel 1 + pixel 2) / 3 < 128)) ∧
    (comp = 3 ∨ comp = 4 →
      (convert_to_bit pixel comp = 0 ↔ 128 ≤ (pixel 0 + pixel 1 + pixel 2) / 3)) ∧
    (∀ pixel2 : Nat → Nat, pixel2 0 = pixel 0 → pixel2 1 = pixel 1 →
      pixel2 2 = pixel 2 → comp = 3 ∨ comp = 4 →
      convert_to_bit pixel2 comp = convert_to_bit pixel comp) ∧
    (convert_to_bit (fun _ => 127) 1 = 1 ∧ convert_to_bit (fun _ => 128) 1 = 0) := by
  refine ⟨?_, ?_, ?_, ?_, ?_, by decide⟩ <;>
    first
    | (rintro (rfl | rfl) <;> simp [convert_to_bit] <;> omega)
    | (rintro p2 h0 h1 h2 (rfl | rfl) <;> simp [convert_to_bit, h0, h1, h2])

/-- Witness for C6 at a concrete gray pixel and `comp = 1`. -/
theorem convert_to_bit_correct_witness :
    convert_to_bit (fun _ => 127) 1 = 1 :=
  ((convert_to_bit_correct (fun _ => 127) 1).1 (Or.inl rfl)).mpr (by decide)

/-- `set_bit` sets the selected bit itself to the requested value. -/
theorem set_bit_testBit_self (b i v : Nat) (hi : i < 8) :
    (set_bit b i v).testBit i = decide (0 < v) := by
  unfold set_bit
  by_cases hv : v > 0
  · rw [if_pos hv]
    simp only [Nat.shiftLeft_eq, Nat.one_mul, Nat.testBit_lor,
      Nat.testBit_two_pow_self, Bool.or_true]
    simp [hv]
  · rw [if_neg hv]
    have h255 : (255 : Nat) = 2 ^ 8 - 1 := by norm_num
    simp only [Nat.shiftLeft_eq, Nat.one_mul, Nat.testBit_land, Nat.testBit_xor,
      h255, Nat.testBit_two_pow_sub_one, Nat.testBit_two_pow_self]
    simp [hi]
    omega

/-- `set_bit` leaves every other bit of the low byte unchanged. -/
theorem set_bit_testBit_ne (b i v j : Nat) (hj : j < 8) (hne : j ≠ i) :
    (set_bit b i v).testBit j = b.testBit j := by
  unfold set_bit
  by_cases hv : v > 0
  · rw [if_pos hv]
    simp only [Nat.shiftLeft_eq, Nat.one_mul, Nat.testBit_lor,
      Nat.testBit_two_pow_of_ne (fun h => hne h.symm), Bool.or_false]
  · rw [if_neg hv]
    have h255 : (255 : Nat) = 2 ^ 8 - 1 := by norm_num
    simp only [Nat.shiftLeft_eq, Nat.one_mul, Nat.testBit_land, Nat.testBit_xor,
      h255, Nat.testBit_two_pow_sub_one, Nat.testBit_two_pow_of_ne
        (fun h => hne h.symm)]
    simp [hj]

/-- `setBitAt` keeps the buffer length. -/
theorem setBitAt_length (buf : List Nat) (idx v : Nat) :
    (setBitAt buf idx v).length = buf.length := by
  simp [setBitAt]

/-- `setBitAt` writes the addressed bit. -/
theorem buf_bit_setBitAt_self (buf : List Nat) (idx v : Nat)
    (h : idx / 8 < buf.length) :
    buf_bit (setBitAt buf idx v) idx = decide (0 < v) := by
  unfold buf_bit setBitAt
  rw [List.getD_eq_getElem?_getD, List.getElem?_set_eq_of_lt _ h]
  simp only [Option.getD_some]
  exact set_bit_testBit_self _ _ _ (by omega)

/-- `setBitAt` leaves every other bit of the buffer unchanged. -/
theorem buf_bit_setBitAt_ne (buf : List Nat) (idx v j : Nat) (hne : j ≠ idx) :
    buf_bit (setBitAt buf idx v) j = buf_bit buf j := by
  unfold buf_bit setBitAt
  by_cases hb : j / 8 = idx / 8
  · have hbit : 7 - j % 8 ≠ 7 - idx % 8 := by omega
    rw [hb, List.getD_eq_getElem?_getD, List.getD_eq_getElem?_getD]
    by_cases hlt : idx / 8 < buf.length
    · rw [List.getElem?_set_eq_of_lt _ hlt]
      simp only [Option.getD_some]
      exact set_bit_testBit_ne _ _ _ _ (by omega) hbit
    · have hnone : buf[idx / 8]? = none := by
        rw [List.getElem?_eq_none_iff]
        omega
      rw [List.getElem?_set_self', hnone]
      simp [hnone]
  · rw [List.getD_eq_getElem?_getD, List.getElem?_set_ne (fun hh => hb hh.symm),
      ← List.getD_eq_getElem?_getD]

/-- Unfolding one step of the inner column loop. -/
theorem write_col_succ (buf : List Nat) (base : Nat) (g : Nat → Nat) (n : Nat) :
    write_col buf base g (n + 1) =
      setBitAt (write_col buf base g n) (base + n) (g n) := by
  unfold write_col
  rw [List.range_succ, List.foldl_append]
  rfl

/-- The inner column loop keeps the buffer length. -/
theorem write_col_length (buf : List Nat) (base : Nat) (g : Nat → Nat) :
    ∀ n, (write_col buf base g n).length = buf.length := by
  intro n
  induction n with
  | zero => rfl
  | succ n ih => rw [write_col_succ, setBitAt_length, ih]

/-- The inner column loop writes bits `base..base+n-1` with `g` and leaves
everything else unchanged. -/
theorem buf_bit_write_col (buf : List Nat) (base : Nat) (g : Nat → Nat) :
    ∀ n, base + n ≤ 8 * buf.length → ∀ j,
      buf_bit (write_col buf base g n) j =
        if base ≤ j ∧ j < base + n then decide (0 < g (j - base))
        else buf_bit buf j := by
  intro n
  induction n with
  | zero =>
    intro hrange j
    rw [if_neg (by omega)]
    rfl
  | succ n ih =>
    intro hrange j
    rw [write_col_succ]
    by_cases hj : j = base + n
    · subst hj
      rw [buf_bit_setBitAt_self _ _ _ (by rw [write_col_length]; omega)]
      rw [if_pos (by omega)]
      have harg : base + n - base = n := by omega
      rw [harg]
    · rw [buf_bit_setBitAt_ne _ _ _ _ hj, ih (by omega) j]
      split_ifs <;> first | rfl | omega

/-- A fold of consecutive column writes keeps the buffer length. -/
theorem write_cols_length (buf : List Nat) (s n : Nat) (gc : Nat → Nat → Nat) :
    ∀ m, ((List.range m).foldl
        (fun b x => write_col b ((s + x) * n) (gc x) n) buf).length
      = buf.length := by
  intro m
  induction m with
  | zero => rfl
  | succ m ih =>
    rw [List.range_succ, List.foldl_append]
    simp only [List.foldl_cons, List.foldl_nil]
    rw [write_col_length, ih]

/-- A fold writing columns `s..s+m-1` (each of `n` bits, column `s+x`
filled by `gc x`) sets exactly the bits `s*n..(s+m)*n-1`; bit `j` in that
range belongs to column `j / n` at row `j % n`. -/
theorem buf_bit_write_cols (buf : List Nat) (s n : Nat) (gc : Nat → Nat → Nat) :
    ∀ m, (s + m) * n ≤ 8 * buf.length → ∀ j,
      buf_bit ((List.range m).foldl
          (fun b x => write_col b ((s + x) * n) (gc x) n) buf) j =
        if s * n ≤ j ∧ j < (s + m) * n then
          decide (0 < gc (j / n - s) (j % n))
        else buf_bit buf j := by
  intro m
  induction m with
  | zero =>
    intro hrange j
    have h0 : (s + 0) * n = s * n := by ring
    rw [if_neg (by omega)]
    rfl
  | succ m ih =>
    intro hrange j
    rw [List.range_succ, List.foldl_append]
    simp only [List.foldl_cons, List.foldl_nil]
    have hexp : (s + (m + 1)) * n = (s + m) * n + n := by ring
    have hmono : s * n ≤ (s + m) * n := Nat.mul_le_mul_right n (by omega)
    have hlen := write_cols_length buf s n gc m
    rw [buf_bit_write_col _ _ _ n (by rw [hlen]; omega) j]
    by_cases htop : (s + m) * n ≤ j ∧ j < (s + m) * n + n
    · rw [if_pos htop]
      have hdiv : j / n = s + m :=
        Nat.div_eq_of_lt_le htop.1 (by rw [Nat.succ_mul]; omega)
      have hmod : j % n = j - n * (s + m) := by
        rw [← hdiv]
        have := Nat.div_add_mod j n
        omega
      have hcomm : n * (s + m) = (s + m) * n := by ring
      rw [if_pos (by omega)]
      have ha : j / n - s = m := by omega
      have hb : j % n = j - (s + m) * n := by omega
      rw [ha, hb]
    · rw [if_neg htop, ih (by omega) j]
      split_ifs with h1 h2 <;> first | rfl | omega

/-- Folds agree when the folded functions agree on the list's elements. -/
theorem foldl_congr_mem {α β : Type} : ∀ (l : List β) (f g : α → β → α) (b : α),
    (∀ a x, x ∈ l → f a x = g a x) → l.foldl f b = l.foldl g b := by
  intro l
  induction l with
  | nil => intro f g b _; rfl
  | cons hd tl ih =>
    intro f g b hfg
    simp only [List.foldl_cons]
    rw [hfg b hd (by simp)]
    exact ih f g _ (fun a x hx => hfg a x (by simp [hx]))

/-- The left-padding loop's base `x * n` in `(s + x) * n` form. -/
theorem loop1_shape (buf : List Nat) (n m : Nat) (z : Nat → Nat) :
    (List.range m).foldl (fun b x => write_col b (x * n) z n) buf
      = (List.range m).foldl (fun b x => write_col b ((0 + x) * n) z n) buf :=
  foldl_congr_mem _ _ _ _ (fun a x _ => by rw [Nat.zero_add])

/-- The image loop's base `s*n + x*n` in `(s + x) * n` form. -/
theorem loop2_shape (buf : List Nat) (n m s : Nat) (gc : Nat → Nat → Nat) :
    (List.range m).foldl (fun b x => write_col b (s * n + x * n) (gc x) n) buf
      = (List.range m).foldl (fun b x => write_col b ((s + x) * n) (gc x) n) buf :=
  foldl_congr_mem _ _ _ _
    (fun a x _ => by rw [show s * n + x * n = (s + x) * n from by ring])

/-- The right-padding loop's base `s*n + t*n + x*n` in `(s + t + x) * n`
form. -/
theorem loop3_shape (buf : List Nat) (n m s t : Nat) (z : Nat → Nat) :
    (List.range m).foldl
        (fun b x => write_col b (s * n + t * n + x * n) z n) buf
      = (List.range m).foldl
          (fun b x => write_col b ((s + t + x) * n) z n) buf :=
  foldl_congr_mem _ _ _ _
    (fun a x _ => by rw [show s * n + t * n + x * n = (s + t + x) * n from by ring])

/-- The padded size is 32-aligned (shared helper). -/
theorem calculate_padding_align (size : Nat) (hsz : 1 ≤ size) :
    32 ∣ (size + (calculate_padding size).1 + (calculate_padding size).2) := by
  unfold calculate_padding
  by_cases h : size % 32 = 0
  · simp [h]; omega
  · by_cases h2 : (32 - size % 32) % 2 = 0 <;> simp [h, h2] <;> omega

/-- The sampler reads only the pixel's first `comp` component bytes. -/
theorem convert_to_bit_congr (p q : Nat → Nat) (comp : Nat)
    (hpq : ∀ o, o < comp → p o = q o) :
    convert_to_bit p comp = convert_to_bit q comp := by
  rcases comp with _ | _ | _ | _ | _ | m
  · rfl
  · simp only [convert_to_bit]
    rw [hpq 0 (by omega)]
  · simp only [convert_to_bit]
    rw [hpq 0 (by omega)]
  · simp only [convert_to_bit]
    rw [hpq 0 (by omega), hpq 1 (by omega), hpq 2 (by omega)]
  · simp only [convert_to_bit]
    rw [hpq 0 (by omega), hpq 1 (by omega), hpq 2 (by omega)]
  · rfl

/-- The component bytes of pixel `(x, y)` lie inside the `w*h*comp`-byte
image buffer. -/
theorem pixel_offset_lt (w h comp x y o : Nat) (hx : x < w) (hy : y < h)
    (ho : o < comp) : y * w * comp + x * comp + o < w * h * comp := by
  have h1 : (x + 1) * comp ≤ w * comp := Nat.mul_le_mul_right comp (by omega)
  have hexp1 : (x + 1) * comp = x * comp + comp := by ring
  have h2 : (y + 1) * (w * comp) ≤ h * (w * comp) :=
    Nat.mul_le_mul_right _ (by omega)
  have hexp2 : (y + 1) * (w * comp) = y * w * comp + w * comp := by ring
  have h3 : h * (w * comp) = w * h * comp := by ring
  omega

/-- Core characterization of the packer's three column loops: the buffer
keeps its length, and bit `col * Hp + y` of the result is the sampled
image bit inside the image columns and 0 in the padding columns. -/
theorem packer_core (buf B : List Nat) (gimg : Nat → Nat → Nat)
    (pl w pr Hp : Nat) (hHp : 0 < Hp)
    (hrange : (pl + w + pr) * Hp ≤ 8 * buf.length)
    (hB : B = (List.range pr).foldl
        (fun b x => write_col b ((pl + w + x) * Hp) (fun _ => 0) Hp)
        ((List.range w).foldl
          (fun b x => write_col b ((pl + x) * Hp) (gimg x) Hp)
          ((List.range pl).foldl
            (fun b x => write_col b ((0 + x) * Hp) (fun _ => 0) Hp) buf))) :
    B.length = buf.length ∧
    ∀ col y, col < pl + w + pr → y < Hp →
      buf_bit B (col * Hp + y) =
        if pl ≤ col ∧ col < pl + w then decide (0 < gimg (col - pl) y)
        else false := by
  subst hB
  have hm0 : (0 + pl) * Hp = pl * Hp := by ring
  have hm0' : (0 : Nat) * Hp = 0 := by ring
  have hm1 : (pl + w) * Hp = pl * Hp + w * Hp := by ring
  have hm2 : (pl + w + pr) * Hp = pl * Hp + w * Hp + pr * Hp := by ring
  have hlen1 : ((List.range pl).foldl
      (fun b x => write_col b ((0 + x) * Hp) (fun _ => 0) Hp) buf).length
      = buf.length := write_cols_length buf 0 Hp (fun _ _ => 0) pl
  have hlen2 : ((List.range w).foldl
      (fun b x => write_col b ((pl + x) * Hp) (gimg x) Hp)
      ((List.range pl).foldl
        (fun b x => write_col b ((0 + x) * Hp) (fun _ => 0) Hp) buf)).length
      = buf.length := by
    rw [write_cols_length, hlen1]
  constructor
  · rw [write_cols_length, hlen2]
  · intro col y hcol hy
    have hj1 : col * Hp ≤ col * Hp + y := Nat.le_add_right _ _
    have hsucc : (col + 1) * Hp = col * Hp + Hp := by ring
    have hdiv : (col * Hp + y) / Hp = col :=
      Nat.div_eq_of_lt_le hj1 (by rw [Nat.succ_mul]; omega)
    have hmod : (col * Hp + y) % Hp = y := by
      have hdm := Nat.div_add_mod (col * Hp + y) Hp
      have hc : Hp * ((col * Hp + y) / Hp) = Hp * col := by rw [hdiv]
      have hcc : Hp * col = col * Hp := by ring
      omega
    have e3 := buf_bit_write_cols _ (pl + w) Hp (fun _ _ => 0) pr
      (by rw [hlen2]; omega) (col * Hp + y)
    have e2 := buf_bit_write_cols _ pl Hp gimg w
      (by rw [hlen1]; omega) (col * Hp + y)
    have e1 := buf_bit_write_cols buf 0 Hp (fun _ _ => 0) pl
      (by omega) (col * Hp + y)
    rw [e3]
    by_cases hc1 : col < pl
    · have hmc1 : (col + 1) * Hp ≤ pl * Hp := Nat.mul_le_mul_right Hp (by omega)
      rw [if_neg (by omega), e2, if_neg (by omega), e1, if_pos (by omega),
        if_neg (by omega)]
      rfl
    · by_cases hc2 : col < pl + w
      · have hmc2 : pl * Hp ≤ col * Hp := Nat.mul_le_mul_right Hp (by omega)
        have hmc3 : (col + 1) * Hp ≤ (pl + w) * Hp :=
          Nat.mul_le_mul_right Hp (by omega)
        rw [if_neg (by omega), e2, if_pos (by omega), hdiv, hmod,
          if_pos (by omega)]
      · have hmc4 : (pl + w) * Hp ≤ col * Hp :=
          Nat.mul_le_mul_right Hp (by omega)
        have hmc5 : (col + 1) * Hp ≤ (pl + w + pr) * Hp :=
          Nat.mul_le_mul_right Hp (by omega)
        rw [if_pos (by omega), if_neg (by omega)]
        rfl

/-- Characterization of `convert_image_to_bits`: reported dimensions,
preserved buffer length, and the value of every bit of the packed bitmap
in the packer's column-major, MSB-first addressing. -/
theorem convert_image_to_bits_spec (buf : List Nat) (image : Nat → Nat)
    (w h comp : Nat) (hw : 1 ≤ w) (hh : 1 ≤ h)
    (hbuf : buf.length = bitmap_w w * bitmap_h h / 8) :
    (convert_image_to_bits buf image w h comp).2.1 = bitmap_w w ∧
    (convert_image_to_bits buf image w h comp).2.2 = bitmap_h h ∧
    (convert_image_to_bits buf image w h comp).1.length = buf.length ∧
    ∀ col y, col < bitmap_w w → y < bitmap_h h →
      buf_bit (convert_image_to_bits buf image w h comp).1
          (col * bitmap_h h + y)
        = decide (0 < bit_at image w h comp col y) := by
  obtain ⟨kw, hkw⟩ := calculate_padding_align w hw
  have hbw : bitmap_w w = 32 * kw := hkw
  have hHp : 0 < bitmap_h h := by unfold bitmap_h; omega
  have hbuf8 : 8 * buf.length = bitmap_w w * bitmap_h h := by
    rw [hbuf, hbw]
    rw [show 32 * kw * bitmap_h h = 8 * (4 * kw * bitmap_h h) from by ring]
    rw [Nat.mul_div_cancel_left _ (by norm_num)]
  have hrange : ((calculate_padding w).1 + w + (calculate_padding w).2)
      * bitmap_h h ≤ 8 * buf.length := by
    rw [hbuf8]
    rw [show ((calculate_padding w).1 + w + (calculate_padding w).2)
        * bitmap_h h = bitmap_w w * bitmap_h h from by unfold bitmap_w; ring]
  have hsrc : (convert_image_to_bits buf image w h comp).1
      = (List.range (calculate_padding w).2).foldl
          (fun b x => write_col b
            ((calculate_padding w).1 * bitmap_h h + w * bitmap_h h
              + x * bitmap_h h)
            (fun _ => 0) (bitmap_h h))
          ((List.range w).foldl
            (fun b x => write_col b
              ((calculate_padding w).1 * bitmap_h h + x * bitmap_h h)
              (fun y => if y < h then
                  convert_to_bit (fun o => image (y * w * comp + x * comp + o))
                    comp
                else 0) (bitmap_h h))
            ((List.range (calculate_padding w).1).foldl
              (fun b x => write_col b (x * bitmap_h h) (fun _ => 0)
                (bitmap_h h)) buf)) := rfl
  have hBdef : (convert_image_to_bits buf image w h comp).1
      = (List.range (calculate_padding w).2).foldl
          (fun b x => write_col b
            (((calculate_padding w).1 + w + x) * bitmap_h h)
            (fun _ => 0) (bitmap_h h))
          ((List.range w).foldl
            (fun b x => write_col b
              (((calculate_padding w).1 + x) * bitmap_h h)
              (fun y => if y < h then
                  convert_to_bit (fun o => image (y * w * comp + x * comp + o))
                    comp
                else 0) (bitmap_h h))
            ((List.range (calculate_padding w).1).foldl
              (fun b x => write_col b ((0 + x) * bitmap_h h) (fun _ => 0)
                (bitmap_h h)) buf)) := by
    rw [hsrc, loop1_shape, loop2_shape, loop3_shape]
  obtain ⟨hlen, hbits⟩ := packer_core buf
    ((convert_image_to_bits buf image w h comp).1)
    (fun x y => if y < h then
        convert_to_bit (fun o => image (y * w * comp + x * comp + o)) comp
      else 0)
    (calculate_padding w).1 w (calculate_padding w).2 (bitmap_h h)
    hHp hrange hBdef
  refine ⟨rfl, rfl, hlen, ?_⟩
  intro col y hcol hy
  have hcol' : col < (calculate_padding w).1 + w + (calculate_padding w).2 := by
    have hbw2 : bitmap_w w
        = w + (calculate_padding w).1 + (calculate_padding w).2 := rfl
    omega
  rw [hbits col y hcol' hy]
  unfold bit_at
  by_cases hreg : (calculate_padding w).1 ≤ col ∧ col < (calculate_padding w).1 + w
  · by_cases hyh : y < h <;> simp [hreg.1, hreg.2, hyh]
  · have hreg3 : ¬((calculate_padding w).1 ≤ col ∧
        col < (calculate_padding w).1 + w ∧ y < h) :=
      fun hcon => hreg ⟨hcon.1, hcon.2.1⟩
    simp [hreg, hreg3]

/-- C7: for positive `w`, `h` and a buffer of `Wp*Hp/8` bytes, the packer
reports dimensions `Wp = w + left + right` and `Hp = h +` the entire
height padding (top collapsed into bottom: rows `0..h-1` hold the image,
all padded rows come after the last image row), both multiples of 32; it
fills exactly the `Wp*Hp/8` bytes, column-major (all `Hp` rows of a
column before the next column), the MSB of each byte holding the first
pixel of its byte-group, as expressed by `buf_bit`/`bit_at`. -/
theorem convert_image_to_bits_correct (buf : List Nat) (image : Nat → Nat)
    (w h comp : Nat) (hw : 1 ≤ w) (hh : 1 ≤ h)
    (hbuf : buf.length = bitmap_w w * bitmap_h h / 8) :
    (convert_image_to_bits buf image w h comp).2.1
      = w + (calculate_padding w).1 + (calculate_padding w).2 ∧
    (convert_image_to_bits buf image w h comp).2.2
      = h + ((calculate_padding h).1 + (calculate_padding h).2) ∧
    32 ∣ (convert_image_to_bits buf image w h comp).2.1 ∧
    32 ∣ (convert_image_to_bits buf image w h comp).2.2 ∧
    (convert_image_to_bits buf image w h comp).1.length
      = (convert_image_to_bits buf image w h comp).2.1
        * (convert_image_to_bits buf image w h comp).2.2 / 8 ∧
    ∀ col y, col < (convert_image_to_bits buf image w h comp).2.1 →
      y < (convert_image_to_bits buf image w h comp).2.2 →
      buf_bit (convert_image_to_bits buf image w h comp).1
          (col * (convert_image_to_bits buf image w h comp).2.2 + y)
        = decide (0 < bit_at image w h comp col y) := by
  obtain ⟨h21, h22, hlen, hbits⟩ :=
    convert_image_to_bits_spec buf image w h comp hw hh hbuf
  refine ⟨?_, ?_, ?_, ?_, ?_, ?_⟩
  · rw [h21]; rfl
  · rw [h22]; unfold bitmap_h; omega
  · rw [h21]; exact calculate_padding_align w hw
  · rw [h22]
    have := calculate_padding_align h hh
    unfold bitmap_h
    omega
  · rw [hlen, h21, h22, hbuf]
  · intro col y hcol hy
    rw [h21] at hcol
    rw [h22] at hy
    rw [h22]
    exact hbits col y hcol hy

/-- Witness for C7 on a 1×1 gray image with a 128-byte scratch buffer
(the 1×1 image pads to a 32×32 bitmap). -/
theorem convert_image_to_bits_correct_witness :
    32 ∣ (convert_image_to_bits (List.replicate 128 0) (fun _ => 0) 1 1 1).2.1 :=
  (convert_image_to_bits_correct (List.replicate 128 0) (fun _ => 0) 1 1 1
    (by decide) (by decide)
    (by simp [bitmap_w, bitmap_h, calculate_padding])).2.2.1

/-- C8: the packer reads the source image only at offsets inside the
`w*h*comp` image bytes — its entire output is unchanged under any
modification of the image function outside those offsets — and every bit
of a padding column or of a padded row (row index `≥ h`) is written as 0
regardless of the image. -/
theorem convert_image_to_bits_safe (buf : List Nat) (image1 image2 : Nat → Nat)
    (w h comp : Nat) (hw : 1 ≤ w) (hh : 1 ≤ h)
    (hagree : ∀ o, o < w * h * comp → image1 o = image2 o)
    (hbuf : buf.length = bitmap_w w * bitmap_h h / 8) :
    convert_image_to_bits buf image1 w h comp
      = convert_image_to_bits buf image2 w h comp ∧
    ∀ col y, col < bitmap_w w → y < bitmap_h h →
      (col < (calculate_padding w).1 ∨ (calculate_padding w).1 + w ≤ col ∨
        h ≤ y) →
      buf_bit (convert_image_to_bits buf image1 w h comp).1
        (col * bitmap_h h + y) = false := by
  constructor
  · unfold convert_image_to_bits
    simp only []
    congr 1
    congr 1
    apply foldl_congr_mem
    intro b x hx
    have hxw : x < w := List.mem_range.mp hx
    have hg : (fun y => if y < h then
          convert_to_bit (fun o => image1 (y * w * comp + x * comp + o)) comp
        else 0)
        = (fun y => if y < h then
            convert_to_bit (fun o => image2 (y * w * comp + x * comp + o)) comp
          else 0) := by
      funext y
      by_cases hyh : y < h
      · simp only [if_pos hyh]
        exact convert_to_bit_congr _ _ comp
          (fun o ho => hagree _ (pixel_offset_lt w h comp x y o hxw hyh ho))
      · simp [hyh]
    rw [hg]
  · intro col y hcol hy hpad
    obtain ⟨h21, h22, hlen, hbits⟩ :=
      convert_image_to_bits_spec buf image1 w h comp hw hh hbuf
    rw [hbits col y hcol hy]
    unfold bit_at
    rw [if_neg (by rintro ⟨ha, hb, hc⟩; omega)]
    rfl

/-- Witness for C8 on a 1×1 gray image: the top-left bit of the packed
bitmap lies in a left-padding column and is blank. -/
theorem convert_image_to_bits_safe_witness :
    buf_bit ((convert_image_to_bits (List.replicate 128 0) (fun _ => 0)
        1 1 1).1) (0 * bitmap_h 1 + 0) = false :=
  (convert_image_to_bits_safe (List.replicate 128 0) (fun _ => 0)
      (fun o => if o < 1 then 0 else 99) 1 1 1 (by decide) (by decide)
      (fun o ho => by simp only [if_pos (show o < 1 from by omega)])
      (by simp [bitmap_w, bitmap_h, calculate_padding])).2 0 0
    (by simp [bitmap_w, calculate_padding]) (by simp [bitmap_h, calculate_padding])
    (Or.inl (by simp [calculate_padding]))

end Escpos
